import Mathlib

/-!
Shallow embedding of the hyperspectral cube storage engine
(`peppy/hsi/cube.py`): the `Cube` data model, the three interleave
layouts (BIP, BIL, BSQ) with their address-translation arithmetic,
the read accessors and their extrema side effects, `save`,
`verifyAttributes`, unit normalization and wavelength-driven band
lookup.  The Python code runs under Python 2, so `/` on integers is
floor division; all index arithmetic is modelled on `Nat`.
Sample values are modelled as `Int` (the integer element types); the
flat payload (the numpy memory-mapped buffer) is modelled as a total
function `Nat → Int` from flat index to stored value.  Wavelengths
and scale factors are modelled as exact rationals `Rat`: every claim
about them concerns comparisons and exact decimal arithmetic where
IEEE doubles and rationals agree.
-/

set_option autoImplicit false

namespace Peppy

/-- The three physical interleave layouts (`BIPCube`, `BILCube`, `BSQCube`). -/
inductive Interleave where
  | bip
  | bil
  | bsq
deriving DecidableEq, Repr

/-- Wavelength units: `'nm'` / `'um'` strings in the source. -/
inductive WUnit where
  | nm
  | um
deriving DecidableEq, Repr

/-- The numeric element types of `cube.py` (numpy dtype tags). -/
inductive DataType where
  | int8
  | uint8
  | int16
  | uint16
  | int32
  | uint32
  | int64
  | uint64
  | float32
  | float64
deriving DecidableEq, Repr

/-- State of `self.mmap`: `None`, a live `numpy.memmap` array, or the
literal `True` flag that `createCube` stores for in-memory cubes. -/
inductive MmapState where
  | noMap
  | mapped
  | trueFlag
deriving DecidableEq, Repr

/-- The `Cube` data model: the metadata and state fields of
`Cube.__init__` that the verified operations read or write.  `raw` is
the typed flat view over the payload (numpy buffer), as a total map
from flat index to stored value; `spectraextrema` is the running
`[min, max]` pair initialised to `[None, None]`. -/
structure Cube where
  url : Option String
  samples : Nat
  lines : Nat
  bands : Nat
  interleave : Interleave
  data_type : Option DataType
  wavelengths : List Rat
  bbl : List Int
  fwhm : List Rat
  band_names : List String
  wavelength_units : Option WUnit
  scale_factor : Option Rat
  mmap : MmapState
  raw : Nat → Int
  spectraextrema : Option Int × Option Int
  file_offset : Nat
  header_offset : Nat
  data_offset : Nat

/-- A cube fresh out of `Cube.__init__`: every metadata field at its
constructor default (shape fields deferred to the caller, since the
source initialises them to the "unset" marker `-1`). -/
def initCube (il : Interleave) (L S B : Nat) : Cube where
  url := none
  samples := S
  lines := L
  bands := B
  interleave := il
  data_type := none
  wavelengths := []
  bbl := []
  fwhm := []
  band_names := []
  wavelength_units := none
  scale_factor := none
  mmap := MmapState.noMap
  raw := fun _ => 0
  spectraextrema := (none, none)
  file_offset := 0
  header_offset := 0
  data_offset := 0

/-! ### Layout address translation

`locationToFlat` / `flatToLocation` of `BIPCube`, `BILCube`,
`BSQCube` (cube.py lines 625-634, 666-675, 708-717), written over the
dimensions `L` (lines), `S` (samples), `B` (bands).  Python 2 `/` on
ints is floor division, hence `Nat` division here. -/

/-- Python `locationToFlat(line, sample, band)` per layout:
BIP: `line*bands*samples + sample*bands + band`;
BIL: `line*bands*samples + band*samples + sample`;
BSQ: `band*lines*samples + line*samples + sample`. -/
def locToFlat : Interleave → Nat → Nat → Nat → Nat → Nat → Nat → Nat
  | Interleave.bip, _, S, B, l, s, b => l * B * S + s * B + b
  | Interleave.bil, _, S, B, l, s, b => l * B * S + b * S + s
  | Interleave.bsq, L, S, _, l, s, b => b * L * S + l * S + s

/-- Python `flatToLocation(pos)` per layout, returning `(line, sample, band)`:
BIP: `line = pos/(B*S)`, `temp = pos%(B*S)`, `sample = temp/B`, `band = temp%B`;
BIL: `line = pos/(B*S)`, `temp = pos%(B*S)`, `band = temp/S`, `sample = temp%S`;
BSQ: `band = pos/(L*S)`, `temp = pos%(L*S)`, `line = temp/S`, `sample = temp%S`. -/
def flatToLoc : Interleave → Nat → Nat → Nat → Nat → Nat × Nat × Nat
  | Interleave.bip, _, S, B, pos => (pos / (B * S), pos % (B * S) / B, pos % (B * S) % B)
  | Interleave.bil, _, S, B, pos => (pos / (B * S), pos % (B * S) % S, pos % (B * S) / S)
  | Interleave.bsq, L, S, _, pos => (pos % (L * S) / S, pos % (L * S) % S, pos / (L * S))

/-- Python `Cube.locationToFlat`, delegated to the subclass for the cube's
interleave. -/
def Cube.locationToFlat (c : Cube) (line sample band : Nat) : Nat :=
  locToFlat c.interleave c.lines c.samples c.bands line sample band

/-- Python `Cube.flatToLocation`, delegated to the subclass for the cube's
interleave. -/
def Cube.flatToLocation (c : Cube) (pos : Nat) : Nat × Nat × Nat :=
  flatToLoc c.interleave c.lines c.samples c.bands pos

/-! ### The reshaped view and `getPixel`

`shape()` reshapes the flat buffer C-order into `(lines, samples,
bands)` for BIP, `(lines, bands, samples)` for BIL, `(bands, lines,
samples)` for BSQ; a C-order 3-d view with inner dimensions `d1, d2`
puts element `[i][j][k]` at flat offset `(i*d1 + j)*d2 + k`.
`getPixel` indexes the reshaped view: BIP `raw[line][sample][band]`,
BIL `raw[line][band][sample]`, BSQ `raw[band][line][sample]`. -/

/-- Python `getPixel(line, sample, band)` per subclass, as the flat-buffer
read its reshaped-view indexing denotes. -/
def Cube.getPixel (c : Cube) (line sample band : Nat) : Int :=
  match c.interleave with
  | Interleave.bip => c.raw ((line * c.samples + sample) * c.bands + band)
  | Interleave.bil => c.raw ((line * c.bands + band) * c.samples + sample)
  | Interleave.bsq => c.raw ((band * c.lines + line) * c.samples + sample)

/-- A cube of shape `(L, S, B)` whose payload holds the logical data
`data line sample band` laid out in the given interleave's physical
order: flat position `i` stores the logical value at
`flatToLocation(i)`.  This is "the same logical data written through"
each layout. -/
def mkCube (il : Interleave) (L S B : Nat) (data : Nat → Nat → Nat → Int) : Cube :=
  { initCube il L S B with
    raw := fun i =>
      match flatToLoc il L S B i with
      | (l, s, b) => data l s b }

/-! ### Running extrema -/

/-- Python `Cube.updateExtrema(spectra)` (cube.py 431-437) on the
`spectraextrema` pair alone: lower the recorded min to
`spectra.min()` if unset or larger, raise the recorded max to
`spectra.max()` if unset or smaller.  numpy `.min()`/`.max()` on an
empty array raise, so the empty case never completes a call; it is
modelled as the identity. -/
def updateExtrema (e : Option Int × Option Int) (spectra : List Int) :
    Option Int × Option Int :=
  match spectra.min?, spectra.max? with
  | some mn, some mx =>
    (match e.1 with
     | none => some mn
     | some m => if mn < m then some mn else some m,
     match e.2 with
     | none => some mx
     | some m => if mx > m then some mx else some m)
  | _, _ => e

/-- Python `self.updateExtrema(spectra)` as a state update on the cube. -/
def Cube.applyUpdateExtrema (c : Cube) (spectra : List Int) : Cube :=
  { c with spectraextrema := updateExtrema c.spectraextrema spectra }

/-- The extrema pair `e'` records a range at least as wide as `e`:
once a min is recorded it can only decrease, once a max is recorded
it can only increase. -/
def extMono (e e' : Option Int × Option Int) : Prop :=
  (∀ m, e.1 = some m → ∃ m', e'.1 = some m' ∧ m' ≤ m) ∧
  (∀ m, e.2 = some m → ∃ m', e'.2 = some m' ∧ m ≤ m')

/-! ### Band access

numpy basic slicing (`raw[:,:,band]` and friends) yields a *view*: an
index map into the same buffer, not a copy.  A band view maps
`(line, sample)` to the flat offset of that element in the reshaped
buffer. -/

/-- Python `getBandRaw(band)` per subclass: the view `raw[:,:,band]` (BIP),
`raw[:,band,:]` (BIL), `raw[band,:,:]` (BSQ), as the flat-offset map
`(line, sample) ↦ offset` the slice denotes. -/
def Cube.getBandRaw (c : Cube) (band : Nat) : Nat → Nat → Nat :=
  match c.interleave with
  | Interleave.bip => fun l s => (l * c.samples + s) * c.bands + band
  | Interleave.bil => fun l s => (l * c.bands + band) * c.samples + s
  | Interleave.bsq => fun l s => (band * c.lines + l) * c.samples + s

/-- The values a `(lines × samples)` view holds, enumerated row-major,
for feeding `updateExtrema` (numpy folds min/max over all elements). -/
def Cube.bandViewValues (c : Cube) (idx : Nat → Nat → Nat) : List Int :=
  (List.range c.lines).flatMap fun l =>
    (List.range c.samples).map fun s => c.raw (idx l s)

/-- Python `getBandInPlace(band)` (cube.py 454-459): take the raw slice,
call `self.updateExtrema(s)`, and return the slice — a view into the
backing storage, with the extrema update applied to the cube. -/
def Cube.getBandInPlace (c : Cube) (band : Nat) : Cube × (Nat → Nat → Nat) :=
  let idx := c.getBandRaw band
  (c.applyUpdateExtrema (c.bandViewValues idx), idx)

/-! ### Line-of-spectra access

`getLineOfSpectraCopy(line)` returns a `(samples × bands)` buffer.
`BIPCube` takes `raw[line,:,:].copy()` — an independent copy.
`BILCube` and `BSQCube` return `numpy.transpose(...)` of a basic
slice — a *view* despite the method's name.  A view is an index map
`(sample, band) ↦ flat offset`; a copy carries its values. -/

inductive LineBuf where
  | view (idx : Nat → Nat → Nat)
  | copied (vals : Nat → Nat → Int)

/-- Python `getLineOfSpectraCopy(line)` per subclass (cube.py 617-620,
658-661, 700-703): BIP copies `raw[line,:,:]`; BIL transposes the
view `raw[line,:,:]` (shape `(bands, samples)` → `(samples, bands)`);
BSQ transposes the view `raw[:,line,:]`. -/
def Cube.getLineOfSpectraCopy (c : Cube) (line : Nat) : LineBuf :=
  match c.interleave with
  | Interleave.bip => LineBuf.copied fun s b => c.raw ((line * c.samples + s) * c.bands + b)
  | Interleave.bil => LineBuf.view fun s b => (line * c.bands + b) * c.samples + s
  | Interleave.bsq => LineBuf.view fun s b => (b * c.lines + line) * c.samples + s

/-- All `(sample, band)` pairs of one line, row-major. -/
def Cube.linePairs (c : Cube) : List (Nat × Nat) :=
  (List.range c.samples).flatMap fun s =>
    (List.range c.bands).map fun b => (s, b)

/-- The buffer after the in-place broadcast multiply
`spectra *= self.bbl` writes through a `(samples × bands)` view
`idx`: every flat offset reachable as `idx s b` for a valid
`(s, b)` is multiplied by `bbl[b]`; every other offset is untouched. -/
def Cube.writeThroughView (c : Cube) (idx : Nat → Nat → Nat) : Nat → Int :=
  fun i =>
    match c.linePairs.find? (fun p => idx p.1 p.2 == i) with
    | some p => c.raw i * c.bbl.getD p.2 0
    | none => c.raw i

/-- The values of the `(samples × bands)` result of
`getLineOfSpectra`, row-major. -/
def Cube.lineValues (c : Cube) (vals : Nat → Nat → Int) : List Int :=
  (List.range c.samples).flatMap fun s =>
    (List.range c.bands).map fun b => vals s b

/-- Python `getLineOfSpectra(line)` (cube.py 484-492): take
`getLineOfSpectraCopy(line)`, multiply it in place by `bbl`
(broadcast over the band axis — writing through the backing storage
when the buffer is a view), update the extrema from the result, and
return it. -/
def Cube.getLineOfSpectra (c : Cube) (line : Nat) : Cube × (Nat → Nat → Int) :=
  match c.getLineOfSpectraCopy line with
  | LineBuf.copied vals =>
    let vals2 := fun s b => vals s b * c.bbl.getD b 0
    ((c.applyUpdateExtrema (c.lineValues vals2)), vals2)
  | LineBuf.view idx =>
    let raw2 := c.writeThroughView idx
    let vals2 := fun s b => raw2 (idx s b)
    ({ c.applyUpdateExtrema (c.lineValues vals2) with raw := raw2 }, vals2)

/-! ### Wavelength units -/

/-- Modelled from the spec: the repository's `utils.py` (module
`peppy.hsi.utils`, absent from the sources here) supplies the
`units_scale` table that `normalizeUnits` reads.  Per the spec, a
query in nanometers against a micrometer cube scales down by the
nm→um factor 0.001, so the table records each unit's magnitude with
nanometers as the base: 1 for `'nm'`, 1000 for `'um'`. -/
def units_scale : WUnit → Rat
  | WUnit.nm => 1
  | WUnit.um => 1000

/-- Python `Cube.normalizeUnits(val, units)` (cube.py 499-507): unchanged if
the cube has no wavelength units; otherwise
`val * units_scale[units] / units_scale[self.wavelength_units]`. -/
def Cube.normalizeUnits (c : Cube) (val : Rat) (units : WUnit) : Rat :=
  match c.wavelength_units with
  | none => val
  | some cu => val * units_scale units / units_scale cu

/-! ### Wavelength-driven band lookup -/

/-- Python `Cube.getBandListByWavelength(wavelen_min, wavelen_max=-1,
units='nm')` (cube.py 521-562).  The Python default `wavelen_max=-1`
is passed explicitly here.  Wavelength reads beyond the list model
Python's list indexing only on in-range channels; all callers stay
within `range(self.bands)` as the source does. -/
def Cube.getBandListByWavelength (c : Cube) (wavelen_min wavelen_max : Rat)
    (units : WUnit) : List Nat :=
  let wmax0 := if wavelen_max < 0 then wavelen_min else wavelen_max
  let wmin := c.normalizeUnits wavelen_min units
  let wmax := c.normalizeUnits wmax0 units
  if c.wavelengths = [] then []
  else
    let wl := fun ch => c.wavelengths.getD ch 0
    let bandlist := (List.range c.bands).filter fun ch =>
      c.bbl.getD ch 0 == 1 && decide (wmin ≤ wl ch) && decide (wl ch ≤ wmax)
    if bandlist ≠ [] then bandlist
    else
      let center := (wmax + wmin) / 2
      if center < wl 0 then
        match (List.range c.bands).find? (fun ch => c.bbl.getD ch 0 == 1) with
        | some ch => [ch]
        | none => []
      else if center > wl (c.bands - 1) then
        match (List.range c.bands).reverse.find? (fun ch => c.bbl.getD ch 0 == 1) with
        | some ch => [ch]
        | none => []
      else
        match (List.range (c.bands - 1)).find? (fun ch =>
            c.bbl.getD ch 0 == 1 && decide (wl ch < center) &&
              decide (center < wl (ch + 1))) with
        | some ch =>
          if center - wl ch < wl (ch + 1) - center then [ch] else [ch + 1]
        | none => []

/-! ### Attribute defaulting (`verifyAttributes`) -/

/-- The scale factor `Cube.guessScaleFactor` (cube.py 398-406) picks
per element type: 10000.0 for the listed integer types (`uint8` is
absent from the source's list and falls to the default branch), 1.0
for float types, 1.0 otherwise. -/
def guessedScaleFactor : Option DataType → Rat
  | some DataType.int8 | some DataType.int16 | some DataType.int32
  | some DataType.uint16 | some DataType.uint32
  | some DataType.int64 | some DataType.uint64 => 10000
  | some DataType.float32 | some DataType.float64 => 1
  | _ => 1

/-- Python `Cube.guessScaleFactor`: store the guess in `self.scale_factor`. -/
def Cube.guessScaleFactor (c : Cube) : Cube :=
  { c with scale_factor := some (guessedScaleFactor c.data_type) }

/-- Python `Cube.guessWavelengthUnits` (cube.py 423-429): `'um'` if the last
wavelength `self.wavelengths[-1]` is below 100.0, else `'nm'`.  Only
reached when the wavelength list is non-empty. -/
def Cube.guessWavelengthUnits (c : Cube) : Cube :=
  { c with wavelength_units := some (if c.wavelengths.getLastD 0 < (100 : Rat)
      then WUnit.um else WUnit.nm) }

/-- Python `verifyAttributes` step (cube.py 370-372): supply a scale factor
when `self.scale_factor == None`. -/
def Cube.vaScale (c : Cube) : Cube :=
  if c.scale_factor = none then c.guessScaleFactor else c

/-- Python `verifyAttributes` step (cube.py 374-376): supply an all-usable
bad band list when `self.bbl` is empty. -/
def Cube.vaBbl (c : Cube) : Cube :=
  if c.bbl = [] then { c with bbl := List.replicate c.bands 1 } else c

/-- Python `verifyAttributes` step (cube.py 379-381): guess the wavelength
units when wavelengths are supplied but units are not. -/
def Cube.vaUnits (c : Cube) : Cube :=
  if c.wavelengths ≠ [] ∧ c.wavelength_units = none then c.guessWavelengthUnits else c

/-- Python `verifyAttributes` step (cube.py 391-394): derive `data_offset`
from `file_offset + header_offset` when an offset component is set
but `data_offset` is 0. -/
def Cube.vaOffset (c : Cube) : Cube :=
  if (c.header_offset > 0 ∨ c.file_offset > 0) ∧ c.data_offset = 0 then
    { c with data_offset := c.file_offset + c.header_offset }
  else c

/-- Python `Cube.verifyAttributes` (cube.py 366-394): the four defaulting
steps in source order. -/
def Cube.verifyAttributes (c : Cube) : Cube :=
  c.vaScale.vaBbl.vaUnits.vaOffset

/-! ### `save` -/

/-- What a `save` call did: flushed a live mapping, serialized the
in-memory payload to a file, or returned without writing anything. -/
inductive SaveEffect where
  | flushed
  | wroteFile
  | noWrite
deriving DecidableEq, Repr

/-- Python `Cube.save(url=None)` (cube.py 307-316).  `setURL` runs only when
a url argument is given; then, *only if* `self.url` is set, either a
live `numpy.memmap` (`self.mmap` an ndarray, not the `True` flag) is
flushed and synced, or `self.raw.tofile(...)` writes the payload.
With no resolvable url the method falls off the end: no exception is
raised and nothing is written.  The `Except` wrapper carries the
error channel the spec expects; the source's `open` uses it
(`IOError`), `save` never does. -/
def Cube.save (c : Cube) (url : Option String) : Except String (Cube × SaveEffect) :=
  let c' := match url with
    | some u => { c with url := some u }
    | none => c
  match c'.url with
  | some _ =>
    match c'.mmap with
    | MmapState.mapped => Except.ok (c', SaveEffect.flushed)
    | _ => Except.ok (c', SaveEffect.wroteFile)
  | none => Except.ok (c', SaveEffect.noWrite)

/-! ## Theorems -/

/-! ### Address-translation arithmetic -/

theorem div_mod_decomp (d q r : Nat) (hr : r < d) :
    (d * q + r) / d = q ∧ (d * q + r) % d = r := by
  have hd : 0 < d := lt_of_le_of_lt (Nat.zero_le r) hr
  constructor
  · rw [Nat.mul_add_div hd, Nat.div_eq_of_lt hr, Nat.add_zero]
  · rw [Nat.mul_add_mod, Nat.mod_eq_of_lt hr]

theorem pair_bound {x X y Y : Nat} (hx : x < X) (hy : y < Y) :
    Y * x + y < Y * X := by
  calc Y * x + y < Y * x + Y := Nat.add_lt_add_left hy _
    _ = Y * (x + 1) := by ring
    _ ≤ Y * X := Nat.mul_le_mul_left Y hx

theorem flatToLoc_locToFlat (il : Interleave) (L S B l s b : Nat)
    (hl : l < L) (hs : s < S) (hb : b < B) :
    flatToLoc il L S B (locToFlat il L S B l s b) = (l, s, b) := by
  cases il with
  | bip =>
    have hd : B * s + b < B * S := pair_bound hs hb
    have e : l * B * S + s * B + b = B * S * l + (B * s + b) := by ring
    have h1 := div_mod_decomp (B * S) l (B * s + b) hd
    have h2 := div_mod_decomp B s b hb
    simp only [locToFlat, flatToLoc, e, h1.1, h1.2, h2.1, h2.2]
  | bil =>
    have hd : S * b + s < B * S := by
      have h := pair_bound hb hs
      rwa [Nat.mul_comm S B] at h
    have e : l * B * S + b * S + s = B * S * l + (S * b + s) := by ring
    have h1 := div_mod_decomp (B * S) l (S * b + s) hd
    have h2 := div_mod_decomp S b s hs
    simp only [locToFlat, flatToLoc, e, h1.1, h1.2, h2.1, h2.2]
  | bsq =>
    have hd : S * l + s < L * S := by
      have h := pair_bound hl hs
      rwa [Nat.mul_comm S L] at h
    have e : b * L * S + l * S + s = L * S * b + (S * l + s) := by ring
    have h1 := div_mod_decomp (L * S) b (S * l + s) hd
    have h2 := div_mod_decomp S l s hs
    simp only [locToFlat, flatToLoc, e, h1.1, h1.2, h2.1, h2.2]

/-- Claim C1: for every layout and every cube, `flatToLocation` is a
left inverse of `locationToFlat` on every `(line, sample, band)`
within the cube's shape. -/
theorem c1_flatToLocation_locationToFlat (c : Cube) (l s b : Nat)
    (hl : l < c.lines) (hs : s < c.samples) (hb : b < c.bands) :
    c.flatToLocation (c.locationToFlat l s b) = (l, s, b) :=
  flatToLoc_locToFlat c.interleave c.lines c.samples c.bands l s b hl hs hb

theorem c1_witness :
    (initCube Interleave.bil 4 5 3).flatToLocation
      ((initCube Interleave.bil 4 5 3).locationToFlat 2 3 1) = (2, 3, 1) :=
  c1_flatToLocation_locationToFlat (initCube Interleave.bil 4 5 3) 2 3 1
    (by decide) (by decide) (by decide)

/-- Claim C3: on every `(l, s, b)` within the cube's shape,
`locationToFlat` computes `l*B*S + s*B + b` for BIP,
`l*B*S + b*S + s` for BIL, and `b*L*S + l*S + s` for BSQ. -/
theorem c3_locationToFlat_formulas (c : Cube) (l s b : Nat)
    (_hl : l < c.lines) (_hs : s < c.samples) (_hb : b < c.bands) :
    (c.interleave = Interleave.bip →
      c.locationToFlat l s b = l * c.bands * c.samples + s * c.bands + b) ∧
    (c.interleave = Interleave.bil →
      c.locationToFlat l s b = l * c.bands * c.samples + b * c.samples + s) ∧
    (c.interleave = Interleave.bsq →
      c.locationToFlat l s b = b * c.lines * c.samples + l * c.samples + s) := by
  refine ⟨fun h => ?_, fun h => ?_, fun h => ?_⟩ <;>
    simp only [Cube.locationToFlat, h, locToFlat]

theorem c3_witness :
    (initCube Interleave.bsq 4 5 3).locationToFlat 2 3 1 = 1 * 4 * 5 + 2 * 5 + 3 :=
  (c3_locationToFlat_formulas (initCube Interleave.bsq 4 5 3) 2 3 1
    (by decide) (by decide) (by decide)).2.2 rfl

/-- Claim C2: the same logical data written through BIP, BIL and BSQ
cubes of one shape gives the same `getPixel(l, s, b)` on all three
cubes (each equals the logical value) for every valid `(l, s, b)`. -/
theorem c2_getPixel_layout_equivalence (L S B : Nat) (data : Nat → Nat → Nat → Int)
    (l s b : Nat) (hl : l < L) (hs : s < S) (hb : b < B) :
    (mkCube Interleave.bip L S B data).getPixel l s b = data l s b ∧
    (mkCube Interleave.bil L S B data).getPixel l s b = data l s b ∧
    (mkCube Interleave.bsq L S B data).getPixel l s b = data l s b := by
  refine ⟨?_, ?_, ?_⟩
  · have e : (l * S + s) * B + b = locToFlat Interleave.bip L S B l s b := by
      simp only [locToFlat]; ring
    simp only [Cube.getPixel, mkCube, initCube, e,
      flatToLoc_locToFlat Interleave.bip L S B l s b hl hs hb]
  · have e : (l * B + b) * S + s = locToFlat Interleave.bil L S B l s b := by
      simp only [locToFlat]; ring
    simp only [Cube.getPixel, mkCube, initCube, e,
      flatToLoc_locToFlat Interleave.bil L S B l s b hl hs hb]
  · have e : (b * L + l) * S + s = locToFlat Interleave.bsq L S B l s b := by
      simp only [locToFlat]; ring
    simp only [Cube.getPixel, mkCube, initCube, e,
      flatToLoc_locToFlat Interleave.bsq L S B l s b hl hs hb]

theorem c2_witness :
    (mkCube Interleave.bip 4 5 3 (fun l s b => (l * 100 + s * 10 + b : Int))).getPixel 2 3 1
        = (2 * 100 + 3 * 10 + 1 : Int) ∧
    (mkCube Interleave.bil 4 5 3 (fun l s b => (l * 100 + s * 10 + b : Int))).getPixel 2 3 1
        = (2 * 100 + 3 * 10 + 1 : Int) ∧
    (mkCube Interleave.bsq 4 5 3 (fun l s b => (l * 100 + s * 10 + b : Int))).getPixel 2 3 1
        = (2 * 100 + 3 * 10 + 1 : Int) :=
  c2_getPixel_layout_equivalence 4 5 3 (fun l s b => (l * 100 + s * 10 + b : Int))
    2 3 1 (by decide) (by decide) (by decide)

/-! ### Extrema lemmas (claims C7, C4) -/

theorem list_min?_le_of_mem {l : List Int} {mn v : Int}
    (h : l.min? = some mn) (hv : v ∈ l) : mn ≤ v := by
  have anti : Std.Antisymm fun x1 x2 : Int => x1 ≤ x2 :=
    ⟨@fun a b h1 h2 => le_antisymm h1 h2⟩
  rw [List.min?_eq_some_iff (fun a => le_refl a) (fun a b => min_choice a b)
    (fun a b c => le_min_iff)] at h
  exact h.2 v hv

theorem list_le_max?_of_mem {l : List Int} {mx v : Int}
    (h : l.max? = some mx) (hv : v ∈ l) : v ≤ mx := by
  have anti : Std.Antisymm fun x1 x2 : Int => x1 ≤ x2 :=
    ⟨@fun a b h1 h2 => le_antisymm h1 h2⟩
  rw [List.max?_eq_some_iff (fun a => le_refl a) (fun a b => max_choice a b)
    (fun a b c => max_le_iff)] at h
  exact h.2 v hv

theorem extMono_refl (e : Option Int × Option Int) : extMono e e :=
  ⟨fun m hm => ⟨m, hm, le_refl m⟩, fun m hm => ⟨m, hm, le_refl m⟩⟩

theorem extMono_trans {e1 e2 e3 : Option Int × Option Int}
    (h12 : extMono e1 e2) (h23 : extMono e2 e3) : extMono e1 e3 := by
  constructor
  · intro m hm
    obtain ⟨m2, hm2, hle2⟩ := h12.1 m hm
    obtain ⟨m3, hm3, hle3⟩ := h23.1 m2 hm2
    exact ⟨m3, hm3, le_trans hle3 hle2⟩
  · intro m hm
    obtain ⟨m2, hm2, hle2⟩ := h12.2 m hm
    obtain ⟨m3, hm3, hle3⟩ := h23.2 m2 hm2
    exact ⟨m3, hm3, le_trans hle2 hle3⟩

theorem updateExtrema_extMono (e : Option Int × Option Int) (s : List Int) :
    extMono e (updateExtrema e s) := by
  cases hmn : s.min? with
  | none =>
    have h : updateExtrema e s = e := by unfold updateExtrema; rw [hmn]
    rw [h]; exact extMono_refl e
  | some mn =>
    cases hmx : s.max? with
    | none =>
      have h : updateExtrema e s = e := by unfold updateExtrema; rw [hmn, hmx]
      rw [h]; exact extMono_refl e
    | some mx =>
      have hu : updateExtrema e s =
          (match e.1 with
           | none => some mn
           | some m => if mn < m then some mn else some m,
           match e.2 with
           | none => some mx
           | some m => if mx > m then some mx else some m) := by
        unfold updateExtrema; rw [hmn, hmx]
      rw [hu]
      constructor
      · intro m hm
        simp only [hm]
        by_cases h : mn < m
        · exact ⟨mn, by rw [if_pos h], le_of_lt h⟩
        · exact ⟨m, by rw [if_neg h], le_refl m⟩
      · intro m hm
        simp only [hm]
        by_cases h : mx > m
        · exact ⟨mx, by rw [if_pos h], le_of_lt h⟩
        · exact ⟨m, by rw [if_neg h], le_refl m⟩

theorem updateExtrema_bounds (e : Option Int × Option Int) (s : List Int)
    (v : Int) (hv : v ∈ s) :
    (∃ mn, (updateExtrema e s).1 = some mn ∧ mn ≤ v) ∧
    (∃ mx, (updateExtrema e s).2 = some mx ∧ v ≤ mx) := by
  have hne : s ≠ [] := List.ne_nil_of_mem hv
  cases hmn : s.min? with
  | none => exact absurd (List.min?_eq_none_iff.mp hmn) hne
  | some mn =>
    cases hmx : s.max? with
    | none => exact absurd (List.max?_eq_none_iff.mp hmx) hne
    | some mx =>
      have hminle : mn ≤ v := list_min?_le_of_mem hmn hv
      have hlemax : v ≤ mx := list_le_max?_of_mem hmx hv
      have hu : updateExtrema e s =
          (match e.1 with
           | none => some mn
           | some m => if mn < m then some mn else some m,
           match e.2 with
           | none => some mx
           | some m => if mx > m then some mx else some m) := by
        unfold updateExtrema; rw [hmn, hmx]
      rw [hu]
      constructor
      · cases he : e.1 with
        | none => exact ⟨mn, rfl, hminle⟩
        | some m =>
          by_cases h : mn < m
          · refine ⟨mn, ?_, hminle⟩
            show (if mn < m then some mn else some m) = some mn
            rw [if_pos h]
          · refine ⟨m, ?_, le_trans (not_lt.mp h) hminle⟩
            show (if mn < m then some mn else some m) = some m
            rw [if_neg h]
      · cases he : e.2 with
        | none => exact ⟨mx, rfl, hlemax⟩
        | some m =>
          by_cases h : mx > m
          · refine ⟨mx, ?_, hlemax⟩
            show (if mx > m then some mx else some m) = some mx
            rw [if_pos h]
          · refine ⟨m, ?_, le_trans hlemax (not_lt.mp h)⟩
            show (if mx > m then some mx else some m) = some m
            rw [if_neg h]

/-- Claim C7: over any sequence of `updateExtrema` calls the recorded
minimum never increases and the recorded maximum never decreases;
once set, the recorded range only expands. -/
theorem c7_extrema_monotone (c : Cube) (calls : List (List Int)) :
    extMono c.spectraextrema
      (calls.foldl Cube.applyUpdateExtrema c).spectraextrema := by
  induction calls generalizing c with
  | nil => exact extMono_refl _
  | cons a as ih =>
    exact extMono_trans (updateExtrema_extMono c.spectraextrema a)
      (ih (c.applyUpdateExtrema a))

def cubeC7 : Cube :=
  { initCube Interleave.bip 1 1 1 with spectraextrema := (some 5, some 7) }

theorem c7_witness :
    ∃ m, (([[3], [10]] : List (List Int)).foldl
        Cube.applyUpdateExtrema cubeC7).spectraextrema.1 = some m ∧ m ≤ 5 :=
  (c7_extrema_monotone cubeC7 [[3], [10]]).1 5 rfl

/-! ### Claim C4: `getBandInPlace` -/

def cubeC4 : Cube :=
  { initCube Interleave.bip 1 1 1 with raw := fun _ => 5 }

/-- Claim C4 counterexample: on a 1×1×1 cube whose single sample is 5
and whose extrema are still unset, `getBandInPlace(0)` *changes*
`spectraextrema` (cube.py 458 calls `self.updateExtrema(s)`), so the
in-place band read does not leave the extrema unchanged. -/
theorem c4_counterexample :
    (cubeC4.getBandInPlace 0).1.spectraextrema ≠ cubeC4.spectraextrema := by
  decide

/-- Claim C4 amended: `getBandInPlace(band)` returns a view aliasing
the backing storage (the index map of the band's slice, mapping
`(line, sample)` to `locationToFlat(line, sample, band)`; the buffer
itself is not copied and not modified), but it *does* update
`spectraextrema`: afterwards a min and max are recorded that bound
every value of the band. -/
theorem c4_amended_getBandInPlace (c : Cube) (band : Nat) (_hb : band < c.bands) :
    (∀ l s, (c.getBandInPlace band).2 l s = c.locationToFlat l s band) ∧
    (c.getBandInPlace band).1.raw = c.raw ∧
    (c.getBandInPlace band).1.spectraextrema
      = updateExtrema c.spectraextrema (c.bandViewValues (c.getBandRaw band)) ∧
    ∀ v ∈ c.bandViewValues (c.getBandRaw band),
      (∃ mn, (c.getBandInPlace band).1.spectraextrema.1 = some mn ∧ mn ≤ v) ∧
      (∃ mx, (c.getBandInPlace band).1.spectraextrema.2 = some mx ∧ v ≤ mx) := by
  refine ⟨?_, rfl, rfl, ?_⟩
  · intro l s
    show c.getBandRaw band l s = c.locationToFlat l s band
    cases hil : c.interleave <;>
      simp only [Cube.getBandRaw, Cube.locationToFlat, hil, locToFlat] <;> ring
  · intro v hv
    exact updateExtrema_bounds c.spectraextrema _ v hv

theorem c4_witness :
    (0 : Nat) < cubeC4.bands ∧
    ((∃ mn, (cubeC4.getBandInPlace 0).1.spectraextrema.1 = some mn ∧ mn ≤ 5) ∧
     (∃ mx, (cubeC4.getBandInPlace 0).1.spectraextrema.2 = some mx ∧ (5 : Int) ≤ mx)) :=
  ⟨by decide,
   (c4_amended_getBandInPlace cubeC4 0 (by decide)).2.2.2 5 (by decide)⟩

/-! ### Claim C5: `save` with no URL -/

def cubeC5 : Cube := initCube Interleave.bip 4 5 3

/-- Claim C5 counterexample: on a cube with no URL stored, `save`
called with no URL argument neither raises nor writes — it falls off
the end of the method (cube.py 307-316 has no `else` branch on
`if self.url:`), returning normally with nothing written, while the
claim demands an `IOError`. -/
theorem c5_counterexample :
    cubeC5.save none = Except.ok (cubeC5, SaveEffect.noWrite) := rfl

/-- Claim C5 amended: calling `save` on a cube with no resolvable URL
(none stored, none passed) returns silently without writing anything
and without raising; only `open` raises an I/O error for a missing
URL. -/
theorem c5_amended_save_silent (c : Cube) (h : c.url = none) :
    c.save none = Except.ok (c, SaveEffect.noWrite) := by
  simp only [Cube.save, h]

theorem c5_witness :
    (initCube Interleave.bsq 1 1 1).url = none ∧
    (initCube Interleave.bsq 1 1 1).save none
      = Except.ok (initCube Interleave.bsq 1 1 1, SaveEffect.noWrite) :=
  ⟨rfl, c5_amended_save_silent (initCube Interleave.bsq 1 1 1) rfl⟩

/-! ### Claim C10: `normalizeUnits` -/

/-- Claim C10: `normalizeUnits` converts the given value from the
passed-in units into the cube's own units — on a cube recorded in
micrometers, `normalizeUnits(1.0, 'nm')` is 0.001 (scaled down by the
nm→um factor) — and is the identity when the cube has no wavelength
units recorded. -/
theorem c10_normalizeUnits (c : Cube) :
    (c.wavelength_units = some WUnit.um →
      c.normalizeUnits 1 WUnit.nm = 1 / 1000) ∧
    (c.wavelength_units = none →
      ∀ (v : Rat) (u : WUnit), c.normalizeUnits v u = v) := by
  constructor
  · intro h
    simp only [Cube.normalizeUnits, h, units_scale]
    norm_num
  · intro h v u
    simp only [Cube.normalizeUnits, h]

def cubeC10 : Cube :=
  { initCube Interleave.bip 1 1 3 with wavelength_units := some WUnit.um }

theorem c10_witness : cubeC10.normalizeUnits 1 WUnit.nm = 1 / 1000 :=
  (c10_normalizeUnits cubeC10).1 rfl

/-! ### Claim C9: wavelength-unit inference in `verifyAttributes` -/

theorem vaScale_units (c : Cube) : c.vaScale.wavelength_units = c.wavelength_units := by
  unfold Cube.vaScale Cube.guessScaleFactor
  split <;> rfl

theorem vaScale_wavelengths (c : Cube) : c.vaScale.wavelengths = c.wavelengths := by
  unfold Cube.vaScale Cube.guessScaleFactor
  split <;> rfl

theorem vaBbl_units (c : Cube) : c.vaBbl.wavelength_units = c.wavelength_units := by
  unfold Cube.vaBbl
  split <;> rfl

theorem vaBbl_wavelengths (c : Cube) : c.vaBbl.wavelengths = c.wavelengths := by
  unfold Cube.vaBbl
  split <;> rfl

theorem vaOffset_units (c : Cube) : c.vaOffset.wavelength_units = c.wavelength_units := by
  unfold Cube.vaOffset
  split <;> rfl

theorem vaUnits_units (c : Cube) :
    c.vaUnits.wavelength_units =
      if c.wavelengths ≠ [] ∧ c.wavelength_units = none then
        some (if c.wavelengths.getLastD 0 < (100 : Rat) then WUnit.um else WUnit.nm)
      else c.wavelength_units := by
  unfold Cube.vaUnits Cube.guessWavelengthUnits
  split <;> rfl

theorem verifyAttributes_wavelength_units (c : Cube) :
    c.verifyAttributes.wavelength_units =
      if c.wavelengths ≠ [] ∧ c.wavelength_units = none then
        some (if c.wavelengths.getLastD 0 < (100 : Rat) then WUnit.um else WUnit.nm)
      else c.wavelength_units := by
  unfold Cube.verifyAttributes
  rw [vaOffset_units, vaUnits_units, vaBbl_units, vaBbl_wavelengths, vaScale_units,
    vaScale_wavelengths]

def cubeC9 : Cube :=
  { initCube Interleave.bip 1 1 2 with wavelengths := [200, 50], bbl := [1, 1] }

/-- Claim C9 counterexample: the source keys the guess on the *last*
listed wavelength (`self.wavelengths[-1]`, cube.py 426), not on the
longest one.  On a cube with wavelengths `[200, 50]` and no units
set, the longest wavelength is 200 ≥ 100 so the claim demands
nanometers, but `verifyAttributes` records micrometers (last
wavelength 50 < 100). -/
theorem c9_counterexample :
    cubeC9.verifyAttributes.wavelength_units = some WUnit.um ∧
    cubeC9.wavelengths = [200, 50] ∧ cubeC9.wavelength_units = none := by
  refine ⟨?_, rfl, rfl⟩
  rw [verifyAttributes_wavelength_units]
  have hcond : cubeC9.wavelengths ≠ [] ∧ cubeC9.wavelength_units = none := by
    exact ⟨by simp [cubeC9, initCube], rfl⟩
  rw [if_pos hcond]
  norm_num [cubeC9, initCube, List.getLastD]

/-- Claim C9 amended: `verifyAttributes` infers `wavelength_units`
only when the wavelengths list is non-empty and the units are unset;
it sets nanometers when the *last listed* wavelength (the longest
when the list is ascending) is ≥ 100 and micrometers otherwise;
already-set units and the empty-wavelengths case are left
unchanged. -/
theorem c9_amended_wavelength_units (c : Cube) :
    (c.wavelengths ≠ [] → c.wavelength_units = none →
      c.verifyAttributes.wavelength_units =
        some (if c.wavelengths.getLastD 0 < (100 : Rat) then WUnit.um else WUnit.nm)) ∧
    (∀ u, c.wavelength_units = some u →
      c.verifyAttributes.wavelength_units = some u) ∧
    (c.wavelengths = [] →
      c.verifyAttributes.wavelength_units = c.wavelength_units) := by
  refine ⟨fun hw hu => ?_, fun u hu => ?_, fun hw => ?_⟩
  · rw [verifyAttributes_wavelength_units, if_pos ⟨hw, hu⟩]
  · rw [verifyAttributes_wavelength_units, if_neg, hu]
    intro h
    rw [hu] at h
    exact Option.noConfusion h.2
  · rw [verifyAttributes_wavelength_units, if_neg]
    intro h
    exact h.1 hw

theorem c9_witness :
    cubeC9.wavelengths ≠ [] ∧ cubeC9.wavelength_units = none ∧
    cubeC9.verifyAttributes.wavelength_units =
      some (if cubeC9.wavelengths.getLastD 0 < (100 : Rat) then WUnit.um else WUnit.nm) :=
  ⟨by simp [cubeC9, initCube], rfl,
   (c9_amended_wavelength_units cubeC9).1 (by simp [cubeC9, initCube]) rfl⟩

/-! ### Claim C6: wavelength tie-breaking -/

def cubeC6 : Cube :=
  { initCube Interleave.bip 1 1 3 with
    wavelengths := [450, 550, 650], bbl := [1, 1, 1],
    wavelength_units := some WUnit.nm }

/-- Claim C6 counterexample: on a cube with wavelengths
`[450, 550, 650]` nm and all bands usable,
`getBandListByWavelength(500, units='nm')` returns `[1]`, not `[0]`:
the scan (cube.py 555-560) appends the lower band only when
`center - wl[ch] < wl[ch+1] - center` holds *strictly*, so the exact
tie (50 vs 50) falls to the `else` branch and picks band 1. -/
theorem c6_counterexample :
    cubeC6.getBandListByWavelength 500 (-1) WUnit.nm = [1] ∧
    cubeC6.getBandListByWavelength 500 (-1) WUnit.nm ≠ [0] := by
  have h : cubeC6.getBandListByWavelength 500 (-1) WUnit.nm = [1] := by
    norm_num [Cube.getBandListByWavelength, Cube.normalizeUnits, units_scale,
      cubeC6, initCube, List.range_succ, List.filter, List.find?, List.cons_ne_nil]
  refine ⟨h, ?_⟩
  rw [h]
  decide

/-- Claim C6 amended: for a cube with wavelengths `[450, 550, 650]`
in nm and all bands usable, `getBandListByWavelength(500, units='nm')`
returns `[1]`: when the query center lies at equal distance from the
two bracketing usable bands, the tie favors the *higher*-index
band. -/
theorem c6_amended_tie_favors_higher (c : Cube)
    (hb : c.bands = 3) (hw : c.wavelengths = [450, 550, 650])
    (hbbl : c.bbl = [1, 1, 1]) (hu : c.wavelength_units = some WUnit.nm) :
    c.getBandListByWavelength 500 (-1) WUnit.nm = [1] := by
  unfold Cube.getBandListByWavelength Cube.normalizeUnits
  rw [hb, hw, hbbl, hu]
  norm_num [units_scale, List.range_succ, List.filter, List.find?, List.cons_ne_nil]

theorem c6_witness : cubeC6.getBandListByWavelength 500 (-1) WUnit.nm = [1] :=
  c6_amended_tie_favors_higher cubeC6 rfl rfl rfl rfl

/-! ### Claim C8: `getLineOfSpectraCopy` aliasing and the in-place
`*= bbl` write-through in `getLineOfSpectra` -/

theorem affine_inj {S : Nat} {x x' s s' : Nat} (hs : s < S) (hs' : s' < S)
    (h : x * S + s = x' * S + s') : x = x' ∧ s = s' := by
  have e : x * S + s = S * x + s := by ring
  have e' : x' * S + s' = S * x' + s' := by ring
  rw [e, e'] at h
  have h1 := div_mod_decomp S x s hs
  have h2 := div_mod_decomp S x' s' hs'
  constructor
  · rw [← h1.1, ← h2.1, h]
  · rw [← h1.2, ← h2.2, h]

theorem mem_linePairs (c : Cube) (s b : Nat) (hs : s < c.samples) (hb : b < c.bands) :
    (s, b) ∈ c.linePairs := by
  unfold Cube.linePairs
  rw [List.mem_flatMap]
  exact ⟨s, List.mem_range.mpr hs, List.mem_map.mpr ⟨b, List.mem_range.mpr hb, rfl⟩⟩

theorem linePairs_bounds (c : Cube) (p : Nat × Nat) (hp : p ∈ c.linePairs) :
    p.1 < c.samples ∧ p.2 < c.bands := by
  unfold Cube.linePairs at hp
  rw [List.mem_flatMap] at hp
  obtain ⟨s, hs, hmem⟩ := hp
  obtain ⟨b, hb, hpe⟩ := List.mem_map.mp hmem
  rw [← hpe]
  exact ⟨List.mem_range.mp hs, List.mem_range.mp hb⟩

theorem find?_linePairs (c : Cube) (idx : Nat → Nat → Nat)
    (hinj : ∀ p q : Nat × Nat, p.1 < c.samples → q.1 < c.samples →
      p.2 < c.bands → q.2 < c.bands → idx p.1 p.2 = idx q.1 q.2 → p = q)
    (s b : Nat) (hs : s < c.samples) (hb : b < c.bands) :
    c.linePairs.find? (fun p => idx p.1 p.2 == idx s b) = some (s, b) := by
  have hmem := mem_linePairs c s b hs hb
  have hsome : (c.linePairs.find? (fun p => idx p.1 p.2 == idx s b)).isSome = true :=
    List.find?_isSome.mpr ⟨(s, b), hmem, by simp⟩
  obtain ⟨q, hq⟩ := Option.isSome_iff_exists.mp hsome
  have hpq : idx q.1 q.2 = idx s b := by
    have := List.find?_some hq
    exact eq_of_beq this
  have hqb := linePairs_bounds c q (List.mem_of_find?_eq_some hq)
  have : q = (s, b) := hinj q (s, b) hqb.1 hs hqb.2 hb hpq
  rw [hq, this]

theorem writeThroughView_at (c : Cube) (idx : Nat → Nat → Nat)
    (hinj : ∀ p q : Nat × Nat, p.1 < c.samples → q.1 < c.samples →
      p.2 < c.bands → q.2 < c.bands → idx p.1 p.2 = idx q.1 q.2 → p = q)
    (s b : Nat) (hs : s < c.samples) (hb : b < c.bands) :
    c.writeThroughView idx (idx s b) = c.raw (idx s b) * c.bbl.getD b 0 := by
  unfold Cube.writeThroughView
  rw [find?_linePairs c idx hinj s b hs hb]

/-- Claim C8: for BIL and BSQ cubes `getLineOfSpectraCopy(line)` is a
transposed *view* of the backing storage (its `(sample, band)` cell
aliases flat offset `locationToFlat(line, sample, band)`), so the
in-place `spectra *= self.bbl` inside `getLineOfSpectra(line)`
multiplies the cube's stored data of that line by the bad-band mask;
for BIP cubes `getLineOfSpectraCopy` is a true copy (its cells carry
the values at those offsets) and `getLineOfSpectra` leaves the
backing storage unchanged. -/
theorem c8_getLineOfSpectra_aliasing (c : Cube) (line : Nat) (hl : line < c.lines) :
    ((c.interleave = Interleave.bil ∨ c.interleave = Interleave.bsq) →
      ∃ idx, c.getLineOfSpectraCopy line = LineBuf.view idx ∧
        (∀ s b, idx s b = c.locationToFlat line s b) ∧
        (∀ s b, s < c.samples → b < c.bands →
          (c.getLineOfSpectra line).1.raw (idx s b)
            = c.raw (idx s b) * c.bbl.getD b 0)) ∧
    (c.interleave = Interleave.bip →
      (∃ vals, c.getLineOfSpectraCopy line = LineBuf.copied vals ∧
        ∀ s b, vals s b = c.raw (c.locationToFlat line s b)) ∧
      (c.getLineOfSpectra line).1.raw = c.raw) := by
  have hL : 0 < c.lines := lt_of_le_of_lt (Nat.zero_le line) hl
  constructor
  · rintro (h | h)
    · refine ⟨fun s b => (line * c.bands + b) * c.samples + s, ?_, ?_, ?_⟩
      · simp only [Cube.getLineOfSpectraCopy, h]
      · intro s b
        simp only [Cube.locationToFlat, h, locToFlat]
        ring
      · intro s b hs hb
        have hview : c.getLineOfSpectraCopy line
            = LineBuf.view (fun s b => (line * c.bands + b) * c.samples + s) := by
          simp only [Cube.getLineOfSpectraCopy, h]
        have hraw : (c.getLineOfSpectra line).1.raw
            = c.writeThroughView (fun s b => (line * c.bands + b) * c.samples + s) := by
          unfold Cube.getLineOfSpectra
          rw [hview]
        rw [hraw]
        refine writeThroughView_at c _ ?_ s b hs hb
        intro p q hp hq _hpb _hqb hpq
        have := affine_inj hp hq hpq
        have hb2 : p.2 = q.2 := by omega
        exact Prod.ext (this.2) hb2
    · refine ⟨fun s b => (b * c.lines + line) * c.samples + s, ?_, ?_, ?_⟩
      · simp only [Cube.getLineOfSpectraCopy, h]
      · intro s b
        simp only [Cube.locationToFlat, h, locToFlat]
        ring
      · intro s b hs hb
        have hview : c.getLineOfSpectraCopy line
            = LineBuf.view (fun s b => (b * c.lines + line) * c.samples + s) := by
          simp only [Cube.getLineOfSpectraCopy, h]
        have hraw : (c.getLineOfSpectra line).1.raw
            = c.writeThroughView (fun s b => (b * c.lines + line) * c.samples + s) := by
          unfold Cube.getLineOfSpectra
          rw [hview]
        rw [hraw]
        refine writeThroughView_at c _ ?_ s b hs hb
        intro p q hp hq _hpb _hqb hpq
        have h1 := affine_inj hp hq hpq
        have h2 : p.2 * c.lines = q.2 * c.lines := by omega
        have hb2 : p.2 = q.2 := Nat.eq_of_mul_eq_mul_right hL h2
        exact Prod.ext (h1.2) hb2
  · intro h
    constructor
    · refine ⟨fun s b => c.raw ((line * c.samples + s) * c.bands + b), ?_, ?_⟩
      · simp only [Cube.getLineOfSpectraCopy, h]
      · intro s b
        simp only [Cube.locationToFlat, h, locToFlat]
        congr 1
        ring
    · have hcp : c.getLineOfSpectraCopy line
        = LineBuf.copied (fun s b => c.raw ((line * c.samples + s) * c.bands + b)) := by
        simp only [Cube.getLineOfSpectraCopy, h]
      unfold Cube.getLineOfSpectra
      rw [hcp]
      rfl

def cubeC8 : Cube :=
  { initCube Interleave.bil 1 1 2 with
    raw := fun i => (i : Int) + 1, bbl := [1, 0] }

theorem c8_witness :
    (cubeC8.getLineOfSpectra 0).1.raw (cubeC8.locationToFlat 0 0 1)
        = cubeC8.raw (cubeC8.locationToFlat 0 0 1) * cubeC8.bbl.getD 1 0 ∧
    (cubeC8.getLineOfSpectra 0).1.raw (cubeC8.locationToFlat 0 0 1) = 0 := by
  obtain ⟨idx, hview, hidx, hmut⟩ :=
    (c8_getLineOfSpectra_aliasing cubeC8 0 (by decide)).1 (Or.inl rfl)
  have h := hmut 0 1 (by decide) (by decide)
  rw [hidx 0 1] at h
  refine ⟨h, ?_⟩
  rw [h]
  decide

end Peppy
